import Mathlib

/-!
Verification development for the Reflex proxy protocol
(package proxy/reflex of the repository).

The Go sources are shallowly embedded: bytes are `Nat` (value < 256 on the
wire), byte strings are `List Nat`, machine integers are `Nat`/`Int` with
explicit reduction modulo 2^w at the points where Go performs an integer
conversion, fallible operations return `Option`, and sources of randomness
(the AEAD primitive, `crypto/rand`, the weighted samplers of morph.go) are
passed in as explicit oracle parameters.
-/

namespace Reflex

/-! ## Byte-level helpers (encoding/binary, big-endian) -/

/-- Big-endian value of a byte string (`binary.BigEndian.Uint16/Uint32/Uint64`
applied to a slice of the corresponding length). -/
def beNat (l : List Nat) : Nat :=
  l.foldl (fun a b => 256 * a + b) 0

/-- The 8 big-endian bytes of a `uint64` value (`binary.BigEndian.PutUint64`). -/
def be64Bytes (u : Nat) : List Nat :=
  [u / 2 ^ 56 % 256, u / 2 ^ 48 % 256, u / 2 ^ 40 % 256, u / 2 ^ 32 % 256,
   u / 2 ^ 24 % 256, u / 2 ^ 16 % 256, u / 2 ^ 8 % 256, u % 256]

/-- Reinterpret a `uint64` value as Go `int64` (two's complement). -/
def toInt64 (u : Nat) : Int :=
  if u < 2 ^ 63 then (u : Int) else (u : Int) - 2 ^ 64

/-- Wrap an unbounded integer into the `int64` range, as Go arithmetic
overflow does (two's complement). -/
def wrap64 (i : Int) : Int :=
  (i + 2 ^ 63) % 2 ^ 64 - 2 ^ 63

/-! ## codec.go: frame constants, Session.ReadFrame, NonceTracker -/

def FrameTypeData : Nat := 0x01
def FrameTypePadding : Nat := 0x02
def FrameTypeTiming : Nat := 0x03
def FrameTypeClose : Nat := 0x04

/-- 2 bytes length + 1 byte type (codec.go). -/
def FrameHeaderSize : Nat := 3

def MaxFramePayload : Nat := 16384

/-- ChaCha20-Poly1305 tag size: `sess.aead.Overhead()`. -/
def aeadOverhead : Nat := 16

/-- Frame represents an encrypted protocol frame (codec.go). -/
structure Frame where
  length : Nat
  type : Nat
  payload : List Nat
  deriving DecidableEq, Repr

/-- The 12-byte AEAD nonce built by `Session.nextReadNonce` /
`nextWriteNonce`: 4 zero bytes followed by the big-endian 64-bit counter. -/
def nonceBytes (counter : Nat) : List Nat :=
  [0, 0, 0, 0] ++ be64Bytes counter

/-- `Session.ReadFrame` (codec.go), embedded over an input byte stream.
`opn` is the AEAD opening primitive (`aead.Open` with empty associated
data), given the 12-byte nonce and the ciphertext; `readNonce` is the
session's read counter.  The result is the decoded frame, the read counter
after the call, and the unconsumed remainder of the stream; `none` models
every error return (short read or AEAD failure, both of which kill the
connection). -/
def readFrame (opn : List Nat → List Nat → Option (List Nat))
    (readNonce : Nat) (input : List Nat) :
    Option (Frame × Nat × List Nat) :=
  match input with
  | b0 :: b1 :: frameType :: rest =>
    let length := 256 * b0 + b1
    if length = 0 then
      some (⟨0, frameType, []⟩, readNonce, rest)
    else if rest.length < length then
      none
    else
      match opn (nonceBytes readNonce) (rest.take length) with
      | none => none
      | some payload =>
        some (⟨length, frameType, payload⟩, readNonce + 1, rest.drop length)
  | _ => none

/-- NonceTracker (codec.go): the Go `map[uint64]struct{}` is embedded as the
list of its keys (kept duplicate-free by `check`), `max` is the capacity. -/
structure NonceTracker where
  seen : List Nat
  max : Nat
  deriving DecidableEq, Repr

/-- `NewNonceTracker` (codec.go). -/
def NonceTracker.new (maxEntries : Nat) : NonceTracker :=
  ⟨[], maxEntries⟩

/-- `NonceTracker.Check` (codec.go): false if seen; otherwise clear the whole
set when it is at capacity, then insert and return true. -/
def NonceTracker.check (nt : NonceTracker) (nonce : Nat) : Bool × NonceTracker :=
  if nonce ∈ nt.seen then
    (false, nt)
  else if nt.max ≤ nt.seen.length then
    (true, { nt with seen := [nonce] })
  else
    (true, { nt with seen := nonce :: nt.seen })

/-- A sequence of `Check` calls, collecting the results. -/
def NonceTracker.checkSeq (nt : NonceTracker) (l : List Nat) :
    List Bool × NonceTracker :=
  match l with
  | [] => ([], nt)
  | n :: rest =>
    let r := nt.check n
    let rs := r.2.checkSeq rest
    (r.1 :: rs.1, rs.2)

/-! ## handshake.go: constants, ClientHandshake, validation, authentication -/

def ReflexMagic : Nat := 0x5246584C

def HandshakeHeaderSize : Nat := 4 + 32 + 16 + 8 + 16

def MaxTimestampDrift : Int := 120

/-- ClientHandshake (handshake.go); `userID` and `nonce` are raw 16-byte
strings, `timestamp` the signed 64-bit Unix time. -/
structure ClientHandshake where
  publicKey : List Nat
  userID : List Nat
  timestamp : Int
  nonce : List Nat
  deriving DecidableEq, Repr

/-- `UnmarshalClientHandshake` (handshake.go): length check, magic check,
then fixed-offset field extraction (`int64(binary.BigEndian.Uint64)` for the
timestamp). -/
def UnmarshalClientHandshake (data : List Nat) : Option ClientHandshake :=
  if data.length < HandshakeHeaderSize then none
  else if beNat (data.take 4) ≠ ReflexMagic then none
  else some
    { publicKey := (data.drop 4).take 32
      userID := (data.drop 36).take 16
      timestamp := toInt64 (beNat ((data.drop 52).take 8))
      nonce := (data.drop 60).take 16 }

/-- `ValidateTimestamp` (handshake.go), with `time.Now().Unix()` passed in
as `now`. -/
def ValidateTimestamp (now timestamp : Int) : Bool :=
  let diff := now - timestamp
  let diff := if diff < 0 then -diff else diff
  diff ≤ MaxTimestampDrift

/-- ClientEntry (handshake.go).  `uuid.ParseString(client.ID)` is embedded as
the precomputed parse result `idParsed` (`none` models a parse error, `some`
the 16 UUID bytes). -/
structure ClientEntry where
  idParsed : Option (List Nat)
  policy : String
  deriving DecidableEq, Repr

/-- `AuthenticateUser` (handshake.go): walk the client list, skip entries
whose UUID string fails to parse, return the first entry whose parsed UUID
bytes equal the presented ones (`subtle.ConstantTimeCompare == 1`). -/
def AuthenticateUser (userID : List Nat) : List ClientEntry → Option ClientEntry
  | [] => none
  | c :: rest =>
    match c.idParsed with
    | none => AuthenticateUser userID rest
    | some pid =>
      if userID = pid then some c else AuthenticateUser userID rest

/-! ## inbound/inbound.go: the classification prefix of Handler.Process -/

/-- The ways the classification prefix of `Handler.Process` can end. -/
inductive FatalReason where
  | peekFailed
  | badMagic
  | readHandshake
  | parseFailed
  | staleTimestamp
  | replay
  | unknownUser
  deriving DecidableEq, Repr

/-- Outcome of the classification prefix of `Handler.Process`:
forwarded to the fallback destination, closed with an error, or handed to
`handleSession` with the authenticated entry. -/
inductive ProcOutcome where
  | fallbackOut
  | fatal (reason : FatalReason)
  | session (entry : ClientEntry) (hs : ClientHandshake)
  deriving DecidableEq, Repr

/-- `Handler.Process` (inbound/inbound.go, up to the point where the server
handshake reply is generated): peek 4 bytes, compare the magic, read the
full 76-byte handshake, unmarshal, validate the timestamp, check the replay
tracker on the big-endian u64 of the first 8 nonce bytes, authenticate the
UUID.  `fb` says whether a fallback is configured; `input` is the byte
stream of the connection; the updated tracker is returned alongside the
outcome. -/
def Process (fb : Bool) (input : List Nat) (now : Int)
    (tracker : NonceTracker) (clients : List ClientEntry) :
    ProcOutcome × NonceTracker :=
  if input.length < 4 then
    (if fb then .fallbackOut else .fatal .peekFailed, tracker)
  else if beNat (input.take 4) ≠ ReflexMagic then
    (if fb then .fallbackOut else .fatal .badMagic, tracker)
  else if input.length < HandshakeHeaderSize then
    (.fatal .readHandshake, tracker)
  else
    match UnmarshalClientHandshake (input.take HandshakeHeaderSize) with
    | none => (if fb then .fallbackOut else .fatal .parseFailed, tracker)
    | some hs =>
      if ¬ ValidateTimestamp now hs.timestamp then
        (.fatal .staleTimestamp, tracker)
      else
        let r := tracker.check (beNat (hs.nonce.take 8))
        if ¬ r.1 then
          (.fatal .replay, r.2)
        else
          match AuthenticateUser hs.userID clients with
          | none => (if fb then .fallbackOut else .fatal .unknownUser, r.2)
          | some entry => (.session entry hs, r.2)

/-! ## Destination codec: outbound marshalDestination, inbound parseDestination -/

/-- The three address forms of the destination codec. -/
inductive Address where
  | ipv4 (bytes : List Nat)
  | domain (name : List Nat)
  | ipv6 (bytes : List Nat)
  deriving DecidableEq, Repr

structure Destination where
  addr : Address
  port : Nat
  deriving DecidableEq, Repr

/-- `marshalDestination` (outbound/outbound_test.go): type tag, address bytes
(domains prefixed by `byte(len(domain))`, i.e. the length reduced mod 256),
then `uint16(dest.Port)` big-endian. -/
def marshalDestination (dest : Destination) : List Nat :=
  (match dest.addr with
   | .ipv4 b => 1 :: b
   | .domain s => 2 :: s.length % 256 :: s
   | .ipv6 b => 3 :: b)
  ++ [dest.port % 65536 / 256, dest.port % 256]

/-- `parseDestination` (inbound/inbound.go): length-checked decoding of
`[addrType(1)] [addr] [port(2)]`, returning the destination and the
remaining payload bytes. -/
def parseDestination (data : List Nat) : Option (Destination × List Nat) :=
  if data.length < 4 then none
  else
    match data with
    | [] => none
    | addrType :: rest =>
      match addrType with
      | 1 =>
        if data.length < 1 + 4 + 2 then none
        else
          match rest.drop 4 with
          | p0 :: p1 :: remaining =>
            some (⟨.ipv4 (rest.take 4), 256 * p0 + p1⟩, remaining)
          | _ => none
      | 2 =>
        match rest with
        | [] => none
        | domainLen :: rest1 =>
          if data.length < 2 + domainLen + 2 then none
          else
            match rest1.drop domainLen with
            | p0 :: p1 :: remaining =>
              some (⟨.domain (rest1.take domainLen), 256 * p0 + p1⟩, remaining)
            | _ => none
      | 3 =>
        if data.length < 1 + 16 + 2 then none
        else
          match rest.drop 16 with
          | p0 :: p1 :: remaining =>
            some (⟨.ipv6 (rest.take 16), 256 * p0 + p1⟩, remaining)
          | _ => none
      | _ => none

/-! ## morph.go: traffic profile override cells, padding, MorphWrite, control frames -/

/-- The mutable override cells of a TrafficProfile (morph.go).  The static
weighted distributions and the samplers `sampleWeighted` /
`sampleDelayWeighted` (driven by `math/rand` floats) are embedded as oracle
parameters at the call sites below: the oracle value is the number the
sampler would have returned.  Both cells are Go ints / `time.Duration`
(int64), hence `Int`. -/
structure TrafficProfile where
  nextPacketSize : Int
  nextDelay : Int
  deriving DecidableEq, Repr

/-- `TrafficProfile.GetPacketSize` (morph.go): consume a positive override,
otherwise sample (`sample` is the value `sampleWeighted` returns). -/
def GetPacketSize (sample : Int) (p : TrafficProfile) : Int × TrafficProfile :=
  if 0 < p.nextPacketSize then
    (p.nextPacketSize, { p with nextPacketSize := 0 })
  else
    (sample, p)

/-- `TrafficProfile.GetDelay` (morph.go): consume a positive override,
otherwise sample (`sample` is the value `sampleDelayWeighted` returns). -/
def GetDelay (sample : Int) (p : TrafficProfile) : Int × TrafficProfile :=
  if 0 < p.nextDelay then
    (p.nextDelay, { p with nextDelay := 0 })
  else
    (sample, p)

/-- `TrafficProfile.SetNextPacketSize` (morph.go). -/
def SetNextPacketSize (size : Int) (p : TrafficProfile) : TrafficProfile :=
  { p with nextPacketSize := size }

/-- `TrafficProfile.SetNextDelay` (morph.go). -/
def SetNextDelay (delay : Int) (p : TrafficProfile) : TrafficProfile :=
  { p with nextDelay := delay }

/-- `AddPadding` (morph.go): pad `data` with random bytes up to `targetSize`;
`rand` is the `crypto/rand` byte stream for this call. -/
def AddPadding (data : List Nat) (targetSize : Nat) (rand : Nat → Nat) : List Nat :=
  if targetSize ≤ data.length then data
  else data ++ (List.range (targetSize - data.length)).map rand

/-- The plaintext chunk-size computation inside one `MorphWrite` iteration
(morph.go lines 259-267): subtract AEAD overhead and header size from the
sampled target, fall back to the target itself when that is not positive,
clamp to `MaxFramePayload`. -/
def morphChunkSize (target : Int) : Int :=
  let c := target - (aeadOverhead : Int) - (FrameHeaderSize : Int)
  let c2 := if c ≤ 0 then target else c
  if c2 > (MaxFramePayload : Int) then (MaxFramePayload : Int) else c2

/-- The `for len(data) > 0` loop of `TrafficMorph.MorphWrite` (morph.go),
returning the list of plaintext chunks passed to `WriteFrame` (each sealed
into one DATA frame).  `targets i` is the value `GetPacketSize` returns in
iteration `i` and `rands i` that iteration's `crypto/rand` stream.  The Go
loop has no termination guard, so the embedding carries fuel and returns
`none` when the loop would not have finished within `fuel` iterations. -/
def morphLoop (targets : Nat → Int) (rands : Nat → Nat → Nat) :
    Nat → Nat → List Nat → Option (List (List Nat))
  | 0, _, data => if data = [] then some [] else none
  | fuel + 1, i, data =>
    if data = [] then some []
    else
      let chunkSize := (morphChunkSize (targets i)).toNat
      if data.length ≤ chunkSize then
        some [AddPadding data chunkSize (rands i)]
      else
        match morphLoop targets rands fuel (i + 1) (data.drop chunkSize) with
        | none => none
        | some rest => some (data.take chunkSize :: rest)

/-- `TrafficMorph.MorphWrite` (morph.go): when morphing is disabled or the
profile is nil, a single DATA frame of the raw data; otherwise the chunking
loop.  `enabled` is `m.Enabled && m.Profile != nil`. -/
def MorphWrite (enabled : Bool) (targets : Nat → Int) (rands : Nat → Nat → Nat)
    (data : List Nat) : Option (List (List Nat)) :=
  if enabled then morphLoop targets rands data.length 0 data
  else some [data]

/-- `EncodePaddingControl` (morph.go): `binary.BigEndian.PutUint16(data,
uint16(targetSize))`.  Go's conversion of an `int` to `uint16` keeps the low
16 bits of the two's-complement value, i.e. the Euclidean remainder
mod 2^16. -/
def EncodePaddingControl (targetSize : Int) : List Nat :=
  let u := (targetSize % 65536).toNat
  [u / 256, u % 256]

/-- `EncodeTimingControl` (morph.go): `binary.BigEndian.PutUint64(data,
uint64(delay.Milliseconds()))`.  `Duration.Milliseconds` divides the int64
nanosecond count by 10^6 truncating toward zero; the conversion to `uint64`
is reduction mod 2^64. -/
def EncodeTimingControl (delay : Int) : List Nat :=
  be64Bytes ((Int.tdiv delay 1000000) % 2 ^ 64).toNat

/-- `HandleControlFrame` (morph.go) for a non-nil profile: a PADDING frame
with at least 2 payload bytes sets the next packet size to the big-endian
u16 of the first two payload bytes; a TIMING frame with at least 8 payload
bytes sets the next delay to the big-endian u64 of the first eight payload
bytes times `time.Millisecond`, with int64 conversion and multiplication
overflow as in Go. -/
def HandleControlFrame (frame : Frame) (p : TrafficProfile) : TrafficProfile :=
  if frame.type = FrameTypePadding then
    if 2 ≤ frame.payload.length then
      SetNextPacketSize (beNat (frame.payload.take 2)) p
    else p
  else if frame.type = FrameTypeTiming then
    if 8 ≤ frame.payload.length then
      SetNextDelay (wrap64 (toInt64 (beNat (frame.payload.take 8)) * 1000000)) p
    else p
  else p

/-- Well-formedness of a destination value as the Go types guarantee it:
`net.IPAddress` carries 4 or 16 bytes according to the family, `net.Port`
is a `uint16`.  Domains additionally need to be shorter than 256 bytes for
the single-byte length prefix of the codec. -/
def Destination.wellFormed : Destination → Bool
  | ⟨.ipv4 b, port⟩ => b.length = 4 && port < 65536
  | ⟨.domain s, port⟩ => s.length < 256 && port < 65536
  | ⟨.ipv6 b, port⟩ => b.length = 16 && port < 65536

/-- A concrete 76-byte client-handshake wire image (magic, zero public key,
zero UUID, timestamp 0, nonce of 3s), used to instantiate theorems about
`Process`. -/
def procInput : List Nat :=
  [0x52, 0x46, 0x58, 0x4C] ++ List.replicate 32 0 ++ List.replicate 16 0 ++
    List.replicate 8 0 ++ List.replicate 16 3

/-- The `ClientHandshake` that `procInput` unmarshals to. -/
def procInputHS : ClientHandshake :=
  ⟨List.replicate 32 0, List.replicate 16 0, 0, List.replicate 16 3⟩

/-! ## Theorems -/

/-- The big-endian reading of the 8 bytes written by `be64Bytes` recovers
the value modulo 2^64. -/
theorem beNat_be64Bytes (u : Nat) (h : u < 2 ^ 64) : beNat (be64Bytes u) = u := by
  simp only [beNat, be64Bytes, List.foldl]
  norm_num
  omega

/-- `wrap64` is the identity on values already in the int64 range. -/
theorem wrap64_of_bounded (i : Int) (h1 : -(2 ^ 63) ≤ i) (h2 : i < 2 ^ 63) :
    wrap64 i = i := by
  unfold wrap64
  rw [Int.emod_eq_of_lt (by omega) (by omega)]
  omega

/-- Claim C1: reading a frame whose 3-byte header carries length field 0
returns a frame of the header's type with empty payload, consumes exactly
the 3 header bytes, and leaves the read nonce counter unchanged, so a
subsequent `ReadFrame` that opens a ciphertext uses the same counter
value. -/
theorem readFrame_zero_length (opn : List Nat → List Nat → Option (List Nat))
    (readNonce : Nat) (b0 b1 frameType : Nat) (rest : List Nat)
    (h : 256 * b0 + b1 = 0) :
    readFrame opn readNonce (b0 :: b1 :: frameType :: rest) =
      some (⟨0, frameType, []⟩, readNonce, rest) := by
  simp [readFrame, h]

/-- Witness for C1: a CLOSE header with zero length on a concrete stream. -/
theorem readFrame_zero_length_witness :
    256 * 0 + 0 = 0 ∧
      readFrame (fun _ _ => none) 7 (0 :: 0 :: 4 :: [9, 9]) =
        some (⟨0, 4, []⟩, 7, [9, 9]) :=
  ⟨rfl, readFrame_zero_length (fun _ _ => none) 7 0 0 4 [9, 9] rfl⟩

/-- `Check` answers true exactly when the nonce is not in the seen set. -/
theorem NonceTracker.check_fst (nt : NonceTracker) (n : Nat) :
    (nt.check n).1 = (n ∉ nt.seen : Bool) := by
  unfold NonceTracker.check
  split_ifs <;> simp_all

/-- `Check` never changes the capacity field. -/
theorem NonceTracker.check_max (nt : NonceTracker) (n : Nat) :
    (nt.check n).2.max = nt.max := by
  unfold NonceTracker.check
  split_ifs <;> rfl

/-- After a `Check` of `n`, `n` is in the seen set. -/
theorem NonceTracker.mem_check_self (nt : NonceTracker) (n : Nat) :
    n ∈ (nt.check n).2.seen := by
  unfold NonceTracker.check
  split_ifs with h1 h2 <;> simp_all

/-- The seen set after a `Check` only contains the checked nonce and
previously seen nonces. -/
theorem NonceTracker.check_seen_subset (nt : NonceTracker) (n x : Nat)
    (hx : x ∈ (nt.check n).2.seen) : x = n ∨ x ∈ nt.seen := by
  unfold NonceTracker.check at hx
  split_ifs at hx <;> simp_all

/-- A sequence of `Check` calls on pairwise-distinct nonces, none of which
is currently in the seen set, answers true every time. -/
theorem NonceTracker.checkSeq_all_true (l : List Nat) :
    ∀ nt : NonceTracker, l.Nodup → (∀ x ∈ l, x ∉ nt.seen) →
      (nt.checkSeq l).1 = List.replicate l.length true := by
  induction l with
  | nil => intro nt _ _; rfl
  | cons n rest ih =>
    intro nt hnodup hfresh
    simp only [NonceTracker.checkSeq, List.length_cons, List.replicate]
    rw [List.nodup_cons] at hnodup
    have h1 : (nt.check n).1 = true := by
      rw [NonceTracker.check_fst]
      simp [hfresh n (by simp)]
    have h2 := ih (nt.check n).2 hnodup.2 (fun x hx hmem => by
      rcases NonceTracker.check_seen_subset nt n x hmem with h | h
      · exact hnodup.1 (h ▸ hx)
      · exact hfresh x (by simp [hx]) h)
    rw [h1, h2]

/-- Filling a tracker with distinct fresh nonces that fit the remaining
capacity inserts all of them (reversed, Go map order abstracted as
insertion order) and answers true every time. -/
theorem NonceTracker.checkSeq_fill (l : List Nat) :
    ∀ nt : NonceTracker, l.Nodup → (∀ x ∈ l, x ∉ nt.seen) →
      nt.seen.length + l.length ≤ nt.max →
      (nt.checkSeq l).2 = ⟨l.reverse ++ nt.seen, nt.max⟩ := by
  induction l with
  | nil => intro nt _ _ _; simp [NonceTracker.checkSeq]
  | cons n rest ih =>
    intro nt hnodup hfresh hcap
    rw [List.nodup_cons] at hnodup
    simp only [NonceTracker.checkSeq]
    have hn : n ∉ nt.seen := hfresh n (by simp)
    have hstep : (nt.check n).2 = ⟨n :: nt.seen, nt.max⟩ := by
      unfold NonceTracker.check
      rw [if_neg hn, if_neg (by simp at hcap ⊢; omega)]
    rw [hstep]
    have := ih ⟨n :: nt.seen, nt.max⟩ hnodup.2
      (fun x hx => by
        simp only [List.mem_cons, not_or]
        exact ⟨fun he => hnodup.1 (he ▸ hx), hfresh x (by simp [hx])⟩)
      (by simp at hcap ⊢; omega)
    rw [this]
    simp

/-- Claim C2: `Check` returns true the first time a nonce is presented and
false on immediate re-check; and once a fresh tracker of capacity `m` holds
`m` distinct nonces, the check of a new distinct nonce clears the whole
seen set before inserting, after which every originally inserted nonce is
accepted again. -/
theorem nonceTracker_replay_and_reset (m : Nat) (l : List Nat) (n : Nat)
    (hnodup : l.Nodup) (hlen : l.length = m) (hn : n ∉ l) :
    (∀ (nt : NonceTracker) (x : Nat), x ∉ nt.seen →
       (nt.check x).1 = true ∧ ((nt.check x).2.check x).1 = false) ∧
    ((((NonceTracker.new m).checkSeq l).2.check n).1 = true ∧
     (((NonceTracker.new m).checkSeq l).2.check n).2.seen = [n] ∧
     ((((NonceTracker.new m).checkSeq l).2.check n).2.checkSeq l).1 =
       List.replicate m true) := by
  constructor
  · intro nt x hx
    constructor
    · rw [NonceTracker.check_fst]; simp [hx]
    · rw [NonceTracker.check_fst]; simp [NonceTracker.mem_check_self]
  · have hfill : ((NonceTracker.new m).checkSeq l).2 = ⟨l.reverse, m⟩ := by
      have := NonceTracker.checkSeq_fill l (NonceTracker.new m) hnodup
        (by simp [NonceTracker.new]) (by simp [NonceTracker.new, hlen])
      simpa [NonceTracker.new] using this
    have hnrev : n ∉ l.reverse := by simp [hn]
    have hreset : (((NonceTracker.new m).checkSeq l).2.check n).2 = ⟨[n], m⟩ := by
      rw [hfill]
      unfold NonceTracker.check
      rw [if_neg (by simpa using hnrev), if_pos (by simp [hlen])]
    refine ⟨?_, ?_, ?_⟩
    · rw [NonceTracker.check_fst, hfill]; simpa using hnrev
    · rw [hreset]
    · rw [hreset]
      have := NonceTracker.checkSeq_all_true l ⟨[n], m⟩ hnodup
        (fun x hx => by simpa using fun he : x = n => hn (he ▸ hx))
      rw [hlen] at this
      exact this

/-- Witness for C2: capacity 2, nonces 10 and 20, fresh nonce 30. -/
theorem nonceTracker_replay_and_reset_witness :
    ([10, 20] : List Nat).Nodup ∧ ([10, 20] : List Nat).length = 2 ∧
      (30 : Nat) ∉ ([10, 20] : List Nat) ∧
      ((((NonceTracker.new 2).checkSeq [10, 20]).2.check 30).1 = true ∧
       (((NonceTracker.new 2).checkSeq [10, 20]).2.check 30).2.seen = [30] ∧
       ((((NonceTracker.new 2).checkSeq [10, 20]).2.check 30).2.checkSeq
           [10, 20]).1 = List.replicate 2 true) :=
  ⟨by decide, by decide, by decide,
    (nonceTracker_replay_and_reset 2 [10, 20] 30 (by decide) (by decide)
      (by decide)).2⟩

/-- Counterexample to C9 as stated: a tracker created with capacity 0 holds
one entry after a single `Check`, exceeding its capacity (the clear-then-
insert step always inserts, so the bound fails for capacity 0). -/
theorem nonceTracker_capacity_zero_exceeds :
    (NonceTracker.new 0).max < ((NonceTracker.new 0).check 5).2.seen.length := by
  decide

/-- One `Check` keeps the seen set within a positive capacity. -/
theorem NonceTracker.check_length_le (nt : NonceTracker) (n : Nat)
    (hmax : 1 ≤ nt.max) (h : nt.seen.length ≤ nt.max) :
    (nt.check n).2.seen.length ≤ nt.max := by
  unfold NonceTracker.check
  split_ifs <;> simp_all
  all_goals omega

/-- Claim C9, amended to positive capacities: starting from a fresh tracker
with capacity at least 1, no sequence of `Check` calls ever grows the seen
set beyond the capacity, because an insertion that would overflow clears
the whole map first. -/
theorem nonceTracker_bounded (maxEntries : Nat) (hmax : 1 ≤ maxEntries)
    (l : List Nat) :
    (((NonceTracker.new maxEntries).checkSeq l).2).seen.length ≤ maxEntries := by
  have key : ∀ (l : List Nat) (nt : NonceTracker), 1 ≤ nt.max →
      nt.seen.length ≤ nt.max →
      ((nt.checkSeq l).2).seen.length ≤ nt.max := by
    intro l
    induction l with
    | nil => intro nt _ h; exact h
    | cons n rest ih =>
      intro nt hm h
      simp only [NonceTracker.checkSeq]
      have hmax2 := NonceTracker.check_max nt n
      have := ih (nt.check n).2 (by omega)
        (by rw [hmax2]; exact NonceTracker.check_length_le nt n hm h)
      rw [hmax2] at this
      exact this
  exact key l (NonceTracker.new maxEntries) hmax (by simp [NonceTracker.new])

/-- Witness for the amended C9: capacity 1, three checks. -/
theorem nonceTracker_bounded_witness :
    1 ≤ 1 ∧
      (((NonceTracker.new 1).checkSeq [1, 2, 3]).2).seen.length ≤ 1 :=
  ⟨by decide, nonceTracker_bounded 1 (by decide) [1, 2, 3]⟩

/-- Claim C10: `EncodePaddingControl` reduces its argument modulo 2^16: the
emitted 2-byte payload decodes (big-endian) to `targetSize mod 65536`, and
a peer that handles the resulting PADDING control frame has its next packet
size set to that wrapped value — for out-of-range or negative targets the
peer is silently instructed with the wrapped value. -/
theorem encodePaddingControl_wraps (targetSize : Int) (p : TrafficProfile) :
    beNat (EncodePaddingControl targetSize) = (targetSize % 65536).toNat ∧
    (HandleControlFrame ⟨2, FrameTypePadding, EncodePaddingControl targetSize⟩
        p).nextPacketSize = ((targetSize % 65536).toNat : Int) := by
  have h0 : 0 ≤ targetSize % 65536 :=
    Int.emod_nonneg targetSize (by norm_num)
  have h1 : targetSize % 65536 < 65536 :=
    Int.emod_lt_of_pos targetSize (by norm_num)
  have hlt : (targetSize % 65536).toNat < 65536 := by omega
  constructor
  · simp only [EncodePaddingControl, beNat, List.foldl]
    omega
  · simp only [HandleControlFrame, EncodePaddingControl, FrameTypePadding,
      SetNextPacketSize, beNat, List.take, List.foldl, List.length_cons,
      List.length_nil, if_pos, if_true]
    norm_num
    omega

/-- Counterexample to C7 as stated: target size 0 is representable as a u16,
but after handling `EncodePaddingControl 0` the override cell holds 0, which
`GetPacketSize` treats as unset — the next call samples (here the sampler
yields 1400) instead of returning 0. -/
theorem paddingControl_zero_not_returned :
    (GetPacketSize 1400 (HandleControlFrame
        ⟨2, FrameTypePadding, EncodePaddingControl 0⟩ ⟨0, 0⟩)).1 = 1400 ∧
      (1400 : Int) ≠ 0 := by
  constructor
  · rfl
  · decide

/-- Claim C7, amended to nonzero u16 targets: for every profile state and
every target size `S` with `1 ≤ S < 65536`, handling a PADDING frame whose
payload is `EncodePaddingControl S` makes the next `GetPacketSize` return
exactly `S`, and the call after that samples from the distribution again —
the override is consumed at most once. -/
theorem paddingControl_roundtrip (S : Int) (p : TrafficProfile) (s1 s2 : Int)
    (h1 : 1 ≤ S) (h2 : S < 65536) :
    (GetPacketSize s1 (HandleControlFrame
        ⟨2, FrameTypePadding, EncodePaddingControl S⟩ p)).1 = S ∧
    (GetPacketSize s2 (GetPacketSize s1 (HandleControlFrame
        ⟨2, FrameTypePadding, EncodePaddingControl S⟩ p)).2).1 = s2 := by
  have hm : S % 65536 = S := Int.emod_eq_of_lt (by omega) h2
  have hS : ((S.toNat : Int)) = S := Int.toNat_of_nonneg (by omega)
  have hval : 256 * ((S % 65536).toNat / 256) + (S % 65536).toNat % 256
      = S.toNat := by
    rw [hm]; omega
  have hhandle : HandleControlFrame
      ⟨2, FrameTypePadding, EncodePaddingControl S⟩ p =
      { p with nextPacketSize := (S.toNat : Int) } := by
    simp only [HandleControlFrame, FrameTypePadding, SetNextPacketSize,
      EncodePaddingControl, List.take, beNat, List.foldl,
      TrafficProfile.mk.injEq]
    norm_num [hval]
  have hpos : (0 : Int) < ((S.toNat : Int)) := by omega
  have hfirst : GetPacketSize s1 { p with nextPacketSize := (S.toNat : Int) }
      = (S, { p with nextPacketSize := 0 }) := by
    simp only [GetPacketSize]
    rw [if_pos hpos]
    simp [hS]
  rw [hhandle, hfirst]
  constructor
  · rfl
  · simp [GetPacketSize]

/-- Witness for the amended C7: target 512 on a fresh profile state with
sampler values 1400 then 777. -/
theorem paddingControl_roundtrip_witness :
    (1 : Int) ≤ 512 ∧ (512 : Int) < 65536 ∧
      ((GetPacketSize 1400 (HandleControlFrame
          ⟨2, FrameTypePadding, EncodePaddingControl 512⟩ ⟨0, 0⟩)).1 = 512 ∧
       (GetPacketSize 777 (GetPacketSize 1400 (HandleControlFrame
          ⟨2, FrameTypePadding, EncodePaddingControl 512⟩ ⟨0, 0⟩)).2).1 = 777) :=
  ⟨by decide, by decide,
    paddingControl_roundtrip 512 ⟨0, 0⟩ 1400 777 (by decide) (by decide)⟩

/-- `HandleControlFrame` on a TIMING frame with at least 8 payload bytes
sets the next delay to the decoded millisecond count times 10^6 ns, with
Go's int64 conversions. -/
theorem handleControlFrame_timing_eq (n : Nat) (payload : List Nat)
    (p : TrafficProfile) (h : 8 ≤ payload.length) :
    HandleControlFrame ⟨n, FrameTypeTiming, payload⟩ p =
      SetNextDelay (wrap64 (toInt64 (beNat (payload.take 8)) * 1000000)) p := by
  unfold HandleControlFrame
  split_ifs with h1 h2 h3 <;>
    simp_all [FrameTypePadding, FrameTypeTiming]

set_option maxRecDepth 20000 in
/-- Counterexample to C8 as stated: for the delay D = 1.5 ms (1 500 000 ns),
`EncodeTimingControl` truncates to whole milliseconds, so after handling the
TIMING frame `GetDelay` returns 1 ms, not D. -/
theorem timingControl_truncates :
    (GetDelay 5 (HandleControlFrame
        ⟨8, FrameTypeTiming, EncodeTimingControl 1500000⟩ ⟨0, 0⟩)).1 = 1000000 ∧
      (1000000 : Int) ≠ 1500000 := by
  constructor
  · decide
  · decide

/-- Claim C8, amended to positive whole-millisecond delays within the int64
range: for a delay of `k` milliseconds (`1 ≤ k`, `k·10^6 < 2^63` ns),
handling a TIMING frame whose payload is `EncodeTimingControl (k·10^6)`
makes the next `GetDelay` return exactly that delay. -/
theorem timingControl_roundtrip (k : Int) (p : TrafficProfile) (sample : Int)
    (h1 : 1 ≤ k) (h2 : k * 1000000 < 2 ^ 63) :
    (GetDelay sample (HandleControlFrame
        ⟨8, FrameTypeTiming, EncodeTimingControl (k * 1000000)⟩ p)).1 =
      k * 1000000 := by
  have hk : k < 2 ^ 63 := by nlinarith
  have htdiv : Int.tdiv (k * 1000000) 1000000 = k :=
    Int.mul_tdiv_cancel k (by norm_num)
  have hmod : k % 2 ^ 64 = k := Int.emod_eq_of_lt (by omega) (by omega)
  have henc : EncodeTimingControl (k * 1000000) = be64Bytes k.toNat := by
    rw [EncodeTimingControl, htdiv, hmod]
  have hlt64 : k.toNat < 2 ^ 64 := by omega
  have hbe : beNat (be64Bytes k.toNat) = k.toNat := beNat_be64Bytes _ hlt64
  have hto : toInt64 k.toNat = k := by
    rw [toInt64, if_pos (by omega)]
    omega
  rw [henc, handleControlFrame_timing_eq 8 (be64Bytes k.toNat) p
    (by simp [be64Bytes]),
    List.take_of_length_le (by simp [be64Bytes]), hbe, hto,
    wrap64_of_bounded _ (by nlinarith) h2]
  simp only [SetNextDelay, GetDelay]
  rw [if_pos (by simp; nlinarith)]

/-- Witness for the amended C8: a 7 ms delay on a fresh profile state. -/
theorem timingControl_roundtrip_witness :
    (1 : Int) ≤ 7 ∧ (7 : Int) * 1000000 < 2 ^ 63 ∧
      (GetDelay 5 (HandleControlFrame
          ⟨8, FrameTypeTiming, EncodeTimingControl (7 * 1000000)⟩ ⟨0, 0⟩)).1 =
        7 * 1000000 :=
  ⟨by decide, by decide, timingControl_roundtrip 7 ⟨0, 0⟩ 5 (by decide) (by decide)⟩

set_option maxRecDepth 40000 in
/-- Counterexample to C4 as stated: a domain of 256 bytes does not round
trip, because `marshalDestination` writes `byte(len(domain))`, which wraps
to 0; the parser then reads an empty domain and takes the port from the
first two domain bytes. -/
theorem destination_long_domain_breaks :
    parseDestination
        (marshalDestination ⟨.domain (List.replicate 256 97), 80⟩ ++ []) ≠
      some (⟨.domain (List.replicate 256 97), 80⟩, []) := by
  decide

/-- Claim C4, amended to well-formed destinations (4-byte IPv4 and 16-byte
IPv6 addresses and u16 ports, which the Go `net.Address`/`net.Port` types
guarantee, and domains shorter than 256 bytes, which the single-byte length
prefix requires): decoding `marshalDestination dest ++ t` succeeds and
returns exactly the same address, the same port, and leftover bytes `t`. -/
theorem destination_roundtrip (dest : Destination) (t : List Nat)
    (h : dest.wellFormed = true) :
    parseDestination (marshalDestination dest ++ t) = some (dest, t) := by
  obtain ⟨addr, port⟩ := dest
  have hsplit : ∀ u : Nat, u < 65536 →
      256 * (u % 65536 / 256) + u % 256 = u := by
    intro u hu
    omega
  cases addr with
  | ipv4 b =>
    simp only [Destination.wellFormed, Bool.and_eq_true, decide_eq_true_eq]
      at h
    obtain ⟨hb, hp⟩ := h
    have hshape : marshalDestination ⟨.ipv4 b, port⟩ ++ t =
        1 :: (b ++ (port % 65536 / 256 :: port % 256 :: t)) := by
      simp [marshalDestination]
    rw [hshape]
    unfold parseDestination
    rw [if_neg (by simp [hb]; omega)]
    simp only
    rw [if_neg (by simp [hb]; omega)]
    rw [List.take_left' hb, List.drop_left' hb]
    simp [hsplit port hp]
  | domain s =>
    simp only [Destination.wellFormed, Bool.and_eq_true, decide_eq_true_eq]
      at h
    obtain ⟨hs, hp⟩ := h
    have hslen : s.length % 256 = s.length := Nat.mod_eq_of_lt hs
    have hshape : marshalDestination ⟨.domain s, port⟩ ++ t =
        2 :: s.length :: (s ++ (port % 65536 / 256 :: port % 256 :: t)) := by
      simp [marshalDestination, hslen]
    rw [hshape]
    unfold parseDestination
    rw [if_neg (by simp; omega)]
    simp only
    rw [if_neg (by simp; omega)]
    rw [List.take_left' rfl, List.drop_left' rfl]
    simp [hsplit port hp]
  | ipv6 b =>
    simp only [Destination.wellFormed, Bool.and_eq_true, decide_eq_true_eq]
      at h
    obtain ⟨hb, hp⟩ := h
    have hshape : marshalDestination ⟨.ipv6 b, port⟩ ++ t =
        3 :: (b ++ (port % 65536 / 256 :: port % 256 :: t)) := by
      simp [marshalDestination]
    rw [hshape]
    unfold parseDestination
    rw [if_neg (by simp [hb]; omega)]
    simp only
    rw [if_neg (by simp [hb]; omega)]
    rw [List.take_left' hb, List.drop_left' hb]
    simp [hsplit port hp]

/-- Witness for the amended C4: a 3-byte domain with port 80 and two
trailing payload bytes. -/
theorem destination_roundtrip_witness :
    (Destination.wellFormed ⟨.domain [97, 98, 99], 80⟩ = true) ∧
      parseDestination
          (marshalDestination ⟨.domain [97, 98, 99], 80⟩ ++ [7, 8]) =
        some (⟨.domain [97, 98, 99], 80⟩, [7, 8]) :=
  ⟨by decide, destination_roundtrip ⟨.domain [97, 98, 99], 80⟩ [7, 8] (by decide)⟩

/-- The chunk size chosen in one `MorphWrite` iteration never exceeds
`MaxFramePayload`, whatever the sampled target. -/
theorem morphChunkSize_le (target : Int) :
    (morphChunkSize target).toNat ≤ MaxFramePayload := by
  simp only [morphChunkSize, MaxFramePayload, aeadOverhead, FrameHeaderSize]
  split_ifs <;> omega

/-- For a positive sampled target the chosen chunk size is positive. -/
theorem morphChunkSize_pos (target : Int) (h : 1 ≤ target) :
    1 ≤ (morphChunkSize target).toNat := by
  simp only [morphChunkSize, MaxFramePayload, aeadOverhead, FrameHeaderSize]
  split_ifs <;> omega

/-- `AddPadding` extends `data` to exactly the target size (or leaves it
alone when it is already long enough). -/
theorem addPadding_length (data : List Nat) (targetSize : Nat)
    (rand : Nat → Nat) :
    (AddPadding data targetSize rand).length = max data.length targetSize := by
  unfold AddPadding
  split_ifs <;> simp <;> omega

/-- `AddPadding` only appends: the result is `data` followed by the padding
bytes. -/
theorem addPadding_append (data : List Nat) (targetSize : Nat)
    (rand : Nat → Nat) :
    ∃ pad, AddPadding data targetSize rand = data ++ pad := by
  unfold AddPadding
  split_ifs
  · exact ⟨[], by simp⟩
  · exact ⟨_, rfl⟩

/-- Every chunk a successful `morphLoop` run emits is at most
`MaxFramePayload` long. -/
theorem morphLoop_chunk_le (targets : Nat → Int) (rands : Nat → Nat → Nat) :
    ∀ (fuel i : Nat) (data : List Nat) (chunks : List (List Nat)),
      morphLoop targets rands fuel i data = some chunks →
      ∀ c ∈ chunks, c.length ≤ MaxFramePayload := by
  intro fuel
  induction fuel with
  | zero =>
    intro i data chunks h c hc
    simp only [morphLoop] at h
    split_ifs at h
    simp_all
  | succ n ih =>
    intro i data chunks h c hc
    simp only [morphLoop] at h
    split_ifs at h with h1 h2
    · simp_all
    · rw [Option.some_inj] at h
      subst h
      simp only [List.mem_singleton] at hc
      subst hc
      rw [addPadding_length]
      have := morphChunkSize_le (targets i)
      omega
    · revert h
      cases hrec : morphLoop targets rands n (i + 1)
          (data.drop ((morphChunkSize (targets i)).toNat)) with
      | none => intro h; exact absurd h (by simp)
      | some rest =>
        intro h
        rw [Option.some_inj] at h
        subst h
        rcases List.mem_cons.mp hc with hc | hc
        · subst hc
          have := morphChunkSize_le (targets i)
          simp only [List.length_take]
          omega
        · exact ih (i + 1) _ rest hrec c hc

/-- A successful `morphLoop` run emits the input data as the concatenation
of its chunks, followed only by padding. -/
theorem morphLoop_join (targets : Nat → Int) (rands : Nat → Nat → Nat)
    (hpos : ∀ j, 1 ≤ targets j) :
    ∀ (fuel i : Nat) (data : List Nat), data.length ≤ fuel →
      ∃ chunks pad, morphLoop targets rands fuel i data = some chunks ∧
        chunks.flatten = data ++ pad := by
  intro fuel
  induction fuel with
  | zero =>
    intro i data hlen
    have : data = [] := List.length_eq_zero.mp (by omega)
    subst this
    exact ⟨[], [], by unfold morphLoop; simp, by simp⟩
  | succ n ih =>
    intro i data hlen
    by_cases hdata : data = []
    · subst hdata
      exact ⟨[], [], by unfold morphLoop; simp, by simp⟩
    · have hcs := morphChunkSize_pos (targets i) (hpos i)
      by_cases hfit : data.length ≤ (morphChunkSize (targets i)).toNat
      · obtain ⟨pad, hpad⟩ :=
          addPadding_append data ((morphChunkSize (targets i)).toNat) (rands i)
        refine ⟨[AddPadding data ((morphChunkSize (targets i)).toNat) (rands i)],
          pad, ?_, ?_⟩
        · unfold morphLoop
          rw [if_neg hdata, if_pos hfit]
        · simp [hpad]
      · obtain ⟨chunks, pad, hrec, hjoin⟩ := ih (i + 1)
          (data.drop ((morphChunkSize (targets i)).toNat))
          (by simp; omega)
        refine ⟨data.take ((morphChunkSize (targets i)).toNat) :: chunks,
          pad, ?_, ?_⟩
        · unfold morphLoop
          rw [if_neg hdata, if_neg hfit, hrec]
        · simp only [List.flatten_cons]
          rw [hjoin, ← List.append_assoc, List.take_append_drop]

/-- Claim C5: for every enabled morph with a profile, the concatenation of
the plaintexts of the DATA frames `MorphWrite` emits begins with the input
data itself; padding bytes appear only after it, appended to the final
chunk.  The sampled targets are positive, as `GetPacketSize` yields for
every profile (distribution sizes are positive and zero overrides are
ignored). -/
theorem morphWrite_preserves_data (targets : Nat → Int)
    (rands : Nat → Nat → Nat) (data : List Nat)
    (hpos : ∀ j, 1 ≤ targets j) :
    ∃ chunks pad, MorphWrite true targets rands data = some chunks ∧
      chunks.flatten = data ++ pad := by
  unfold MorphWrite
  rw [if_pos rfl]
  exact morphLoop_join targets rands hpos data.length 0 data le_rfl

/-- Witness for C5: target 25 split of a ten-byte input. -/
theorem morphWrite_preserves_data_witness :
    ∃ chunks pad,
      MorphWrite true (fun _ => 25) (fun _ j => j)
          [1, 2, 3, 4, 5, 6, 7, 8, 9, 10] = some chunks ∧
        chunks.flatten = [1, 2, 3, 4, 5, 6, 7, 8, 9, 10] ++ pad :=
  morphWrite_preserves_data (fun _ => 25) (fun _ j => j)
    [1, 2, 3, 4, 5, 6, 7, 8, 9, 10] (fun _ => by norm_num)

/-- Claim C6: every plaintext chunk `MorphWrite` emits is at most
`MaxFramePayload` long — the per-iteration chunk size is the sampled target
minus the AEAD overhead (16) and the frame header size (3), replaced by the
target itself when not positive and clamped to `MaxFramePayload` — so every
emitted ciphertext (chunk plus 16-byte tag) has length at most
`MaxFramePayload + aeadOverhead + FrameHeaderSize`. -/
theorem morphWrite_ciphertext_bound (targets : Nat → Int)
    (rands : Nat → Nat → Nat) (data : List Nat) (chunks : List (List Nat))
    (h : MorphWrite true targets rands data = some chunks) :
    ∀ c ∈ chunks, c.length ≤ MaxFramePayload ∧
      c.length + aeadOverhead ≤ MaxFramePayload + aeadOverhead + FrameHeaderSize := by
  intro c hc
  have hloop : morphLoop targets rands data.length 0 data = some chunks := by
    unfold MorphWrite at h
    rwa [if_pos rfl] at h
  have := morphLoop_chunk_le targets rands data.length 0 data chunks hloop c hc
  refine ⟨this, ?_⟩
  simp only [aeadOverhead, MaxFramePayload, FrameHeaderSize] at this ⊢
  omega

/-- Witness for C6: the two chunks produced from a ten-byte input with
target 25 stay within the bound. -/
theorem morphWrite_ciphertext_bound_witness :
    List.length [1, 2, 3, 4, 5, 6] ≤ MaxFramePayload ∧
      List.length [1, 2, 3, 4, 5, 6] + aeadOverhead ≤
        MaxFramePayload + aeadOverhead + FrameHeaderSize :=
  morphWrite_ciphertext_bound (fun _ => 25) (fun _ j => j)
    [1, 2, 3, 4, 5, 6, 7, 8, 9, 10] [[1, 2, 3, 4, 5, 6], [7, 8, 9, 10, 0, 1]]
    (by decide) [1, 2, 3, 4, 5, 6] (by decide)

/-- Claim C3: on the inbound state machine a handshake whose timestamp
fails validation or whose nonce is flagged as a replay is always fatal —
the outcome is the corresponding fatal error whether or not a fallback is
configured — while a magic mismatch or an unknown UUID goes to the fallback
when one is configured. -/
theorem process_fatal_policy :
    (∀ (fb : Bool) (input : List Nat) (now : Int) (tracker : NonceTracker)
       (clients : List ClientEntry) (hs : ClientHandshake),
       HandshakeHeaderSize ≤ input.length →
       beNat (input.take 4) = ReflexMagic →
       UnmarshalClientHandshake (input.take HandshakeHeaderSize) = some hs →
       (ValidateTimestamp now hs.timestamp = false →
          Process fb input now tracker clients =
            (.fatal .staleTimestamp, tracker)) ∧
       (ValidateTimestamp now hs.timestamp = true →
        (tracker.check (beNat (hs.nonce.take 8))).1 = false →
          Process fb input now tracker clients =
            (.fatal .replay, (tracker.check (beNat (hs.nonce.take 8))).2))) ∧
    (∀ (input : List Nat) (now : Int) (tracker : NonceTracker)
       (clients : List ClientEntry),
       4 ≤ input.length →
       beNat (input.take 4) ≠ ReflexMagic →
       Process true input now tracker clients = (.fallbackOut, tracker)) ∧
    (∀ (input : List Nat) (now : Int) (tracker : NonceTracker)
       (clients : List ClientEntry) (hs : ClientHandshake),
       HandshakeHeaderSize ≤ input.length →
       beNat (input.take 4) = ReflexMagic →
       UnmarshalClientHandshake (input.take HandshakeHeaderSize) = some hs →
       ValidateTimestamp now hs.timestamp = true →
       (tracker.check (beNat (hs.nonce.take 8))).1 = true →
       AuthenticateUser hs.userID clients = none →
       Process true input now tracker clients =
         (.fallbackOut, (tracker.check (beNat (hs.nonce.take 8))).2)) := by
  refine ⟨?_, ?_, ?_⟩
  · intro fb input now tracker clients hs hlen hmagic hparse
    unfold Process
    rw [if_neg (by simp only [HandshakeHeaderSize] at hlen; omega),
      if_neg (by simp [hmagic]),
      if_neg (by omega), hparse]
    constructor
    · intro hts
      simp [hts]
    · intro hts hre
      simp [hts, hre]
  · intro input now tracker clients hlen hmagic
    unfold Process
    rw [if_neg (by omega), if_pos hmagic]
    rfl
  · intro input now tracker clients hs hlen hmagic hparse hts hre hauth
    unfold Process
    rw [if_neg (by simp only [HandshakeHeaderSize] at hlen; omega),
      if_neg (by simp [hmagic]),
      if_neg (by omega), hparse]
    simp [hts, hre, hauth]

/-- Witness for C3: a concrete 76-byte handshake image with timestamp 0.
At `now = 1000` the timestamp is stale and the outcome is fatal despite the
configured fallback; at `now = 100` with the nonce already tracked the
outcome is the fatal replay error. -/
theorem process_fatal_policy_witness :
    Process true procInput 1000 (NonceTracker.new 4) [] =
      (.fatal .staleTimestamp, NonceTracker.new 4) ∧
    Process true procInput 100 ⟨[beNat (List.replicate 8 3)], 4⟩ [] =
      (.fatal .replay, ⟨[beNat (List.replicate 8 3)], 4⟩) :=
  ⟨(process_fatal_policy.1 true procInput 1000 (NonceTracker.new 4) []
      procInputHS (by decide) (by decide) (by decide)).1 (by decide),
   by
    have := (process_fatal_policy.1 true procInput 100
      ⟨[beNat (List.replicate 8 3)], 4⟩ [] procInputHS (by decide) (by decide)
      (by decide)).2 (by decide) (by decide)
    simpa using this⟩

end Reflex
